import Mathlib

/-!
Shallow embedding of `cmd/mdtogo/main.go` (the mdtogo documentation-to-Go
code generator).  Strings are Lean `String`s (lists of characters); Go
library functions used by the source (`strings.HasPrefix`,
`strings.ReplaceAll`, `strings.Title`, `strings.TrimSpace`, `strings.Join`,
`filepath.Ext`, `filepath.Base`, `bufio.ScanLines`) are modelled
explicitly below, restricted to the documented semantics of each.
All definitions are structurally recursive so that they evaluate by
`decide` / `rfl` on concrete inputs.
-/

/-- Model of Go `strings.HasPrefix s pre`. -/
def goStartsWith (s pre : String) : Bool :=
  pre.data.isPrefixOf s.data

/-- Model of Go `unicode.IsSpace` (the Unicode White_Space property),
written on code points. -/
def goIsSpace (c : Char) : Bool :=
  let n := c.toNat
  n = 0x20 || (0x9 <= n && n <= 0xd) || n = 0x85 || n = 0xa0 ||
  n = 0x1680 || (0x2000 <= n && n <= 0x200a) || n = 0x2028 || n = 0x2029 ||
  n = 0x202f || n = 0x205f || n = 0x3000

/-- `strings.TrimSpace s == ""`: every character of `s` is white space. -/
def isBlankGo (s : String) : Bool :=
  s.data.all goIsSpace

/-- Character-list worker for Go `strings.ReplaceAll` with a non-empty
pattern: replaces non-overlapping leftmost occurrences of `pat` by `rep`.
`fuel` only bounds the recursion; `fuel ≥ length of the input` makes it
total on the input (each step consumes at least one character). -/
def replaceAllFuel (pat rep : List Char) : Nat → List Char → List Char
  | _, [] => []
  | 0, s => s
  | fuel + 1, c :: cs =>
    if pat ≠ [] ∧ pat.isPrefixOf (c :: cs) then
      rep ++ replaceAllFuel pat rep fuel (List.drop (pat.length - 1) cs)
    else
      c :: replaceAllFuel pat rep fuel cs

/-- Model of Go `strings.ReplaceAll s pat rep`.  For the empty pattern Go
inserts `rep` at every character boundary (so with `rep = ""` it is the
identity, which is the only way the source hits this case). -/
def goReplaceAll (s pat rep : String) : String :=
  if pat.data = [] then
    String.mk (rep.data ++ s.data.flatMap (fun c => c :: rep.data))
  else
    String.mk (replaceAllFuel pat.data rep.data s.data.length s.data)

/-- Model of Go `strings.Join` (`goJoin sep parts`). -/
def goJoin (sep : String) : List String → String
  | [] => ""
  | [x] => x
  | x :: y :: xs => x ++ sep ++ goJoin sep (y :: xs)

/-- Worker for `filepathExt`: scans the reversed path; `acc` holds the
characters already seen, in original order. -/
def extRevAux : List Char → List Char → List Char
  | _, [] => []
  | acc, c :: cs =>
    if c = '/' then []
    else if c = '.' then c :: acc
    else extRevAux (c :: acc) cs

/-- Model of Go `filepath.Ext`: the suffix beginning at the final dot in
the final slash-separated element; empty if there is no dot. -/
def filepathExt (s : String) : String :=
  String.mk (extRevAux [] s.data.reverse)

/-- Model of Go `filepath.Base` (Unix path separators). -/
def filepathBase (p : String) : String :=
  if p.data = [] then "." else
  let cs := p.data.reverse.dropWhile (fun c => c = '/')
  if cs = [] then "/" else String.mk ((cs.takeWhile (fun c => c ≠ '/')).reverse)

/-- Model of Go `strings.Title`'s `isSeparator`: in the ASCII range
everything but alphanumerics and `_` separates words; beyond ASCII,
letters and digits do not separate and the remaining characters separate
exactly when they are white space. -/
def goIsSeparator (c : Char) : Bool :=
  if c.toNat ≤ 0x7f then
    !(('0' ≤ c && c ≤ '9') || ('a' ≤ c && c ≤ 'z') || ('A' ≤ c && c ≤ 'Z') || c = '_')
  else
    goIsSpace c

/-- ASCII fragment of Go `unicode.ToTitle` (the source's inputs are ASCII
filenames). -/
def goToTitle (c : Char) : Char :=
  if 'a' ≤ c && c ≤ 'z' then Char.ofNat (c.toNat - 32) else c

/-- Worker for `goTitle`: `prev` is the previous (original) character,
initially a space, exactly as in Go's `strings.Title`. -/
def goTitleAux : Char → List Char → List Char
  | _, [] => []
  | prev, c :: cs =>
    (if goIsSeparator prev then goToTitle c else c) :: goTitleAux c cs

/-- Model of Go `strings.Title`: title-cases every character that begins a
word, where word boundaries are `goIsSeparator` characters. -/
def goTitle (s : String) : String :=
  String.mk (goTitleAux ' ' s.data)

/-- Name derivation of `parse` (main.go:127-129): remove all occurrences
of the filename's extension, title-case, drop hyphens. -/
def deriveName (name : String) : String :=
  let n1 := goReplaceAll name (filepathExt name) ""
  let n2 := goTitle n1
  goReplaceAll n2 "-" ""

/-- The replacement text the source substitutes for a literal backtick
(main.go:176): close the raw string, concatenate an interpreted-string
backtick, reopen the raw string. -/
def backtickRepl : String := "` + \"`\" + `"

/-- Backtick escaping applied to every line kept by the main loop
(main.go:176). -/
def escapeBackticks (line : String) : String :=
  goReplaceAll line "`" backtickRepl

/-- Worker for `scanLines`: split on newline characters; `acc` holds the
current line, reversed. -/
def splitNLAux : List Char → List Char → List String
  | acc, [] => [String.mk acc.reverse]
  | acc, c :: cs =>
    if c = '\n' then String.mk acc.reverse :: splitNLAux [] cs
    else splitNLAux (c :: acc) cs

/-- `bufio.ScanLines` drops one carriage return at the end of a line. -/
def dropTrailingCR (s : String) : String :=
  match s.data.reverse with
  | '\r' :: rest => String.mk rest.reverse
  | _ => s

/-- Model of the token stream of `bufio.Scanner` with the default
`bufio.ScanLines` split function (main.go:131,138): one token per line,
no token for a trailing final newline, no token at all for empty input,
and a single trailing `\r` stripped from each line. -/
def scanLines (s : String) : List String :=
  if s.data = [] then []
  else
    let toks := splitNLAux [] s.data
    let toks := if s.data.getLast? = some '\n' then toks.dropLast else toks
    toks.map dropTrailingCR

/-- The mutable state of `parse`'s scan loop (main.go:133-135), plus a
`capturing` flag modelling control residing in the inner
short-description loop (main.go:142-148). -/
structure ParseState where
  short : String
  isLong : Bool
  isExample : Bool
  isIndent : Bool
  capturing : Bool
  long : List String
  examples : List String
deriving DecidableEq, Repr

/-- All-zero state at the start of each document's parse. -/
def initState : ParseState :=
  { short := "", isLong := false, isExample := false, isIndent := false,
    capturing := false, long := [], examples := [] }

/-- One iteration of `parse`'s scan loop (main.go:138-188) on one line.
When `capturing` is set, control is inside the inner loop that skips
blank lines and takes the first non-blank line verbatim as the short
description.  Otherwise the checks run in source order: short trigger,
the three `### ` switches (skipped in full mode), fence toggle, then
backtick escaping, tab indentation and appending. -/
def parseStep (full : Bool) (st : ParseState) (line : String) : ParseState :=
  if st.capturing then
    if isBlankGo line then st
    else { st with short := line, capturing := false }
  else if goStartsWith line "## " ∧ st.short = "" then
    { st with capturing := true }
  else if full = false ∧ goStartsWith line "### Synopsis" then
    { st with isLong := true, isExample := false }
  else if full = false ∧ goStartsWith line "### Examples" then
    { st with isLong := false, isExample := true }
  else if full = false ∧ goStartsWith line "### " then
    { st with isLong := false, isExample := false }
  else if goStartsWith line "```" then
    { st with isIndent := !st.isIndent }
  else
    let l1 := escapeBackticks line
    let l2 := if st.isIndent then "\t" ++ l1 else l1
    if st.isLong || full then { st with long := st.long ++ [l2] }
    else if st.isExample then { st with examples := st.examples ++ [l2] }
    else st

/-- The whole scan loop of `parse` over a list of scanner tokens. -/
def parseLinesGo (full : Bool) (lines : List String) (st : ParseState) : ParseState :=
  lines.foldl (parseStep full) st

/-- The record built by `parse` (main.go:202-207). -/
structure Doc where
  Name : String
  Short : String
  Long : String
  Examples : String
deriving DecidableEq, Repr

/-- `parse` (main.go:126-200): derive the name from the filename, scan the
body, join the collected lines with newlines.  The global `full` flag is
passed explicitly. -/
def parse (full : Bool) (name value : String) : Doc :=
  let st := parseLinesGo full (scanLines value) initState
  { Name := deriveName name, Short := st.short,
    Long := goJoin "\n" st.long, Examples := goJoin "\n" st.examples }

/-- The per-file loop of `main` (main.go:77-88): skip files whose
extension is not `.md`, parse the rest in order.  Each list element is a
`(filename, contents)` pair. -/
def parseDocs (full : Bool) : List (String × String) → List Doc
  | [] => []
  | (n, c) :: fs =>
    if filepathExt n = ".md" then parse full n c :: parseDocs full fs
    else parseDocs full fs

/-- The declaration list built by `doc.String` (main.go:209-224): one
`var <Name><Suffix>=` line per non-empty field, value wrapped in
backtick delimiters, accumulated in source order. -/
def docParts (d : Doc) : List String :=
  let parts : List String := []
  let parts := if d.Short ≠ "" then
    parts ++ ["var " ++ d.Name ++ "Short=`" ++ d.Short ++ "`"] else parts
  let parts := if d.Long ≠ "" then
    parts ++ ["var " ++ d.Name ++ "Long=`" ++ d.Long ++ "`"] else parts
  let parts := if d.Examples ≠ "" then
    parts ++ ["var " ++ d.Name ++ "Examples=`" ++ d.Examples ++ "`"] else parts
  parts

/-- `doc.String` (main.go:209-226): newline-join of the declarations plus
a trailing newline. -/
def docString (d : Doc) : String :=
  goJoin "\n" (docParts d) ++ "\n"

/-- The built-in license header (main.go:93-94). -/
def defaultLicense : String :=
  "// Copyright 2019 The Kubernetes Authors.\n// SPDX-License-Identifier: Apache-2.0"

/-- License resolution (main.go:90-104).  `fs` models the file system as
a partial map from paths to contents; `none` denotes the fatal
`os.Exit(1)` on an unreadable license file. -/
def resolveLicense (licenseFile : String) (fs : String → Option String) : Option String :=
  if licenseFile = "" then some defaultLicense
  else if licenseFile = "none" then some ""
  else fs licenseFile

/-- The second element of `out` (main.go:106-108): generated-code marker
comment and package clause, derived from the destination's base name. -/
def genHeader (base : String) : String :=
  "\n// Code generated by \"mdtogo\"; DO NOT EDIT.\npackage " ++ base ++ "\n"

/-- The full text written to `<dest>/docs.go` (main.go:106-118): license,
marker/package element and one block per document, joined by newlines. -/
def outputFile (license base : String) (docs : List Doc) : String :=
  goJoin "\n" (license :: genHeader base :: docs.map docString)

/-- Result of `main`'s argument handling (main.go:53-68).  `usageError`
models the usage message plus `os.Exit(1)`; `source`/`dest` are the
elements `os.Args[1]` and `os.Args[2]`, read only when no usage error
occurred. -/
structure ArgsResult where
  full : Bool
  licenseFile : String
  usageError : Bool
  source : Option String
  dest : Option String
deriving DecidableEq, Repr

/-- `main`'s argument scan (main.go:53-68): the flag loop ranges over the
whole argument vector (program name included), `--license=` keeps the
last occurrence with the flag text stripped by `strings.ReplaceAll`, and
the usage check compares the total length of `os.Args` against 3. -/
def readArgs (args : List String) : ArgsResult :=
  let full := args.foldl (fun acc a => if a = "--full=true" then true else acc) false
  let lic := args.foldl
    (fun acc a => if goStartsWith a "--license=" then goReplaceAll a "--license=" "" else acc) ""
  { full := full, licenseFile := lic, usageError := decide (args.length < 3),
    source := args[1]?, dest := args[2]? }

/-! ### Definitions written from the claims' words (for refinement checks) -/

/-- Modelled from the claim C4's words: title case as "capitalize the
first letter of each whitespace-separated word".  Word boundaries here
are white-space characters only, unlike Go's `strings.Title`. -/
def titleWhitespaceAux : Char → List Char → List Char
  | _, [] => []
  | prev, c :: cs =>
    (if goIsSpace prev then goToTitle c else c) :: titleWhitespaceAux c cs

/-- Modelled from the claim C4's words: strip the (single, trailing) file
extension, title-case whitespace-separated words, remove hyphens. -/
def deriveNameSpec (name : String) : String :=
  let ext := filepathExt name
  let n1 := String.mk (name.data.take (name.data.length - ext.data.length))
  let n2 := String.mk (titleWhitespaceAux ' ' n1.data)
  String.mk (n2.data.filter (fun c => c ≠ '-'))

/-- Modelled from the amended claim C2's words: in full mode, after the
short-description capture (state `capt`, with `shortSet` recording
whether a short description exists yet), every line that is neither
consumed by that capture nor a fence-toggle line is appended to the long
text, backtick-escaped and tab-prefixed while inside a fence. -/
def fullLongLines : Bool → Bool → Bool → List String → List String
  | _, _, _, [] => []
  | true, shortSet, ind, l :: ls =>
    if isBlankGo l then fullLongLines true shortSet ind ls
    else fullLongLines false true ind ls
  | false, shortSet, ind, l :: ls =>
    if goStartsWith l "## " ∧ shortSet = false then
      fullLongLines true shortSet ind ls
    else if goStartsWith l "```" then
      fullLongLines false shortSet (!ind) ls
    else
      (if ind then "\t" ++ escapeBackticks l else escapeBackticks l) ::
        fullLongLines false shortSet ind ls

/-! ### A small evaluator for the generated Go string expressions

The escaping contract of claim C5 talks about what the generated
declaration means once compiled as Go; the evaluator below implements
the relevant fragment of the Go specification: raw string literals
(backtick-delimited, carriage returns discarded, no escapes),
interpreted string literals (quote-delimited, the usual escapes, no raw
newlines) and `+`-concatenation with optional blanks around `+`. -/

/-- Raw-literal body: everything up to the closing backtick. -/
def scanRaw : List Char → Option (List Char × List Char)
  | [] => none
  | c :: cs =>
    if c = '`' then some ([], cs)
    else (scanRaw cs).map (fun p => (c :: p.1, p.2))

/-- Escape characters accepted inside interpreted string literals. -/
def unescapeChar (c : Char) : Option Char :=
  if c = 'n' then some '\n'
  else if c = 't' then some '\t'
  else if c = 'r' then some '\r'
  else if c = '\\' then some '\\'
  else if c = '"' then some '"'
  else none

/-- Interpreted-literal body: everything up to the closing quote, with
escapes decoded; raw newlines are illegal. -/
def scanInterp : List Char → Option (List Char × List Char)
  | [] => none
  | '\\' :: e :: cs =>
    match unescapeChar e, scanInterp cs with
    | some c, some p => some (c :: p.1, p.2)
    | _, _ => none
  | '"' :: cs => some ([], cs)
  | c :: cs =>
    if c = '\n' ∨ c = '\\' then none
    else (scanInterp cs).map (fun p => (c :: p.1, p.2))

/-- One string literal: raw (carriage returns discarded) or interpreted. -/
def scanTerm : List Char → Option (List Char × List Char)
  | '`' :: cs => (scanRaw cs).map (fun p => (p.1.filter (fun c => c ≠ '\r'), p.2))
  | '"' :: cs => scanInterp cs
  | _ => none

/-- A `+` operator with optional blanks on both sides. -/
def scanPlus (cs : List Char) : Option (List Char) :=
  match cs.dropWhile (fun c => c = ' ') with
  | '+' :: cs2 => some (cs2.dropWhile (fun c => c = ' '))
  | _ => none

/-- A concatenation `term (+ term)*`; `fuel` bounds the number of terms. -/
def scanExpr : Nat → List Char → Option (List Char × List Char)
  | 0, _ => none
  | fuel + 1, cs =>
    (scanTerm cs).bind (fun vr =>
      (scanPlus vr.2).elim (some vr) (fun r2 =>
        (scanExpr fuel r2).map (fun wr => (vr.1 ++ wr.1, wr.2))))

/-- Value of a complete Go string expression (the whole input must be
consumed). -/
def goStringExprEval (s : String) : Option String :=
  match scanExpr (s.data.length + 1) s.data with
  | some (v, []) => some (String.mk v)
  | _ => none

/-! ### Proof-support definitions -/

/-- Projection of `parseStep` onto the `(short, capturing)` components;
used to show the short description does not depend on the mode flag. -/
def shortStep (p : String × Bool) (l : String) : String × Bool :=
  if p.2 then (if isBlankGo l then p else (l, false))
  else if goStartsWith l "## " ∧ p.1 = "" then (p.1, true)
  else p

/-- The character stream `escapeBackticks` produces, chunk by chunk. -/
def escChunks (cs : List Char) : List Char :=
  cs.flatMap (fun c => if c = '`' then backtickRepl.data else [c])

/-- The input of claim C1's example document. -/
def c1Body : String :=
  "## edit\n\nEdit a resource.\n\n### Synopsis\n\nEdit the named resource in place.\n\n### Examples\n\nkubectl edit pod/foo"

/-! ### Helper lemmas -/

theorem head_of_goStartsWith {l p : String} {c : Char} {cs : List Char}
    (hp : p.data = c :: cs) (h : goStartsWith l p = true) :
    ∃ t, l.data = c :: t := by
  unfold goStartsWith at h
  rw [List.isPrefixOf_iff_prefix, hp] at h
  cases hd : l.data with
  | nil => rw [hd] at h; simp at h
  | cons b t =>
    rw [hd, List.cons_prefix_cons] at h
    exact ⟨t, by rw [h.1]⟩

theorem goStartsWith_false_of_head {l p : String} {c d : Char} {t cs : List Char}
    (hl : l.data = c :: t) (hp : p.data = d :: cs) (hcd : c ≠ d) :
    goStartsWith l p = false := by
  unfold goStartsWith
  rw [hl, hp]
  simp only [Bool.eq_false_iff, ne_eq, List.isPrefixOf_iff_prefix,
    List.cons_prefix_cons]
  rintro ⟨h1, -⟩
  exact hcd h1.symm

theorem parseStep_capturing_blank (full : Bool) (st : ParseState) (l : String)
    (hc : st.capturing = true) (hb : isBlankGo l = true) :
    parseStep full st l = st := by
  unfold parseStep
  rw [hc, hb]
  simp

theorem parseStep_capturing_take (full : Bool) (st : ParseState) (l : String)
    (hc : st.capturing = true) (hb : isBlankGo l = false) :
    parseStep full st l = { st with short := l, capturing := false } := by
  unfold parseStep
  rw [hc, hb]
  simp

theorem parseStep_trigger (full : Bool) (st : ParseState) (l : String)
    (hc : st.capturing = false) (hl : goStartsWith l "## " = true)
    (hs : st.short = "") :
    parseStep full st l = { st with capturing := true } := by
  unfold parseStep
  rw [hc, hl, hs]
  simp

theorem parseStep_fence (full : Bool) (st : ParseState) (l : String)
    (hc : st.capturing = false) (hf : goStartsWith l "```" = true) :
    parseStep full st l = { st with isIndent := !st.isIndent } := by
  obtain ⟨t, ht⟩ := head_of_goStartsWith (p := "```") rfl hf
  have h1 : goStartsWith l "## " = false :=
    goStartsWith_false_of_head ht rfl (by decide)
  have h2 : goStartsWith l "### Synopsis" = false :=
    goStartsWith_false_of_head ht rfl (by decide)
  have h3 : goStartsWith l "### Examples" = false :=
    goStartsWith_false_of_head ht rfl (by decide)
  have h4 : goStartsWith l "### " = false :=
    goStartsWith_false_of_head ht rfl (by decide)
  unfold parseStep
  rw [hc, h1, h2, h3, h4, hf]
  simp

theorem shortProj_parseStep (full : Bool) (st : ParseState) (l : String) :
    ((parseStep full st l).short, (parseStep full st l).capturing) =
      shortStep (st.short, st.capturing) l := by
  unfold parseStep shortStep
  split_ifs <;> simp_all

theorem shortProj_parseLines (full : Bool) (ls : List String) (st : ParseState) :
    ((parseLinesGo full ls st).short, (parseLinesGo full ls st).capturing) =
      List.foldl shortStep (st.short, st.capturing) ls := by
  induction ls generalizing st with
  | nil => rfl
  | cons l ls ih =>
    show ((parseLinesGo full ls (parseStep full st l)).short,
          (parseLinesGo full ls (parseStep full st l)).capturing) = _
    rw [ih, shortProj_parseStep]
    rfl

theorem parseStep_full_examples (st : ParseState) (l : String) :
    (parseStep true st l).examples = st.examples := by
  unfold parseStep
  split_ifs <;> simp_all

theorem parseLines_full_examples (ls : List String) (st : ParseState) :
    (parseLinesGo true ls st).examples = st.examples := by
  induction ls generalizing st with
  | nil => rfl
  | cons l ls ih =>
    show (parseLinesGo true ls (parseStep true st l)).examples = _
    rw [ih, parseStep_full_examples]

theorem parseLines_blank_capturing (full : Bool) (bs : List String)
    (st : ParseState) (hc : st.capturing = true)
    (hb : ∀ b ∈ bs, isBlankGo b = true) :
    parseLinesGo full bs st = st := by
  induction bs with
  | nil => rfl
  | cons b bs ih =>
    show parseLinesGo full bs (parseStep full st b) = st
    rw [parseStep_capturing_blank full st b hc (hb b (by simp))]
    exact ih (fun x hx => hb x (by simp [hx]))

theorem goJoin_append_singleton (sep y : String) (l : List String) (h : l ≠ []) :
    goJoin sep (l ++ [y]) = goJoin sep l ++ sep ++ y := by
  induction l with
  | nil => exact absurd rfl h
  | cons x xs ih =>
    cases xs with
    | nil => rfl
    | cons x2 xs2 =>
      show x ++ sep ++ goJoin sep (x2 :: xs2 ++ [y]) = _
      rw [ih (by simp), ← String.append_assoc, ← String.append_assoc]
      rfl

theorem parseStep_full_plain (st : ParseState) (l : String)
    (hc : st.capturing = false)
    (ht : ¬(goStartsWith l "## " = true ∧ st.short = ""))
    (hf : goStartsWith l "```" = false) :
    parseStep true st l =
      { st with long :=
          st.long ++ [if st.isIndent then "\t" ++ escapeBackticks l else escapeBackticks l] } := by
  unfold parseStep
  rw [hc, hf]
  simp [ht]

theorem blank_false_ne_empty {l : String} (hb : isBlankGo l = false) :
    (l == "") = false := by
  cases h : (l == "") with
  | false => rfl
  | true =>
    have : l = "" := by simpa [beq_iff_eq] using h
    rw [this] at hb
    simp [isBlankGo] at hb

theorem parseLines_full_long (ls : List String) (st : ParseState) :
    (parseLinesGo true ls st).long =
      st.long ++ fullLongLines st.capturing (!(st.short == "")) st.isIndent ls := by
  induction ls generalizing st with
  | nil => simp [parseLinesGo, List.foldl, fullLongLines]
  | cons l ls ih =>
    show (parseLinesGo true ls (parseStep true st l)).long = _
    cases hc : st.capturing with
    | true =>
      cases hb : isBlankGo l with
      | true =>
        rw [parseStep_capturing_blank true st l hc hb, ih]
        simp [fullLongLines, hb, hc]
      | false =>
        rw [parseStep_capturing_take true st l hc hb, ih]
        simp [fullLongLines, hb, blank_false_ne_empty hb]
    | false =>
      by_cases ht : goStartsWith l "## " = true ∧ st.short = ""
      · rw [parseStep_trigger true st l hc ht.1 ht.2, ih]
        have hsh : (st.short == "") = true := by simp [beq_iff_eq, ht.2]
        simp [fullLongLines, ht.1, hsh]
      · by_cases hf : goStartsWith l "```" = true
        · rw [parseStep_fence true st l hc hf, ih]
          cases hsh : (st.short == "") with
          | true =>
            have : st.short = "" := by simpa [beq_iff_eq] using hsh
            have htf : goStartsWith l "## " = false := by
              cases hgs : goStartsWith l "## " with
              | false => rfl
              | true => exact absurd ⟨hgs, this⟩ ht
            simp [fullLongLines, htf, hf, hc]
          | false =>
            simp [fullLongLines, hsh, hf, hc]
        · have hf' : goStartsWith l "```" = false := by
            cases hgs : goStartsWith l "```" with
            | false => rfl
            | true => exact absurd hgs hf
          rw [parseStep_full_plain st l hc ht hf', ih]
          cases hsh : (st.short == "") with
          | true =>
            have : st.short = "" := by simpa [beq_iff_eq] using hsh
            have htf : goStartsWith l "## " = false := by
              cases hgs : goStartsWith l "## " with
              | false => rfl
              | true => exact absurd ⟨hgs, this⟩ ht
            simp [fullLongLines, htf, hf', hc]
          | false =>
            simp [fullLongLines, hsh, hf', hc]

theorem replaceAllFuel_backtick (cs : List Char) :
    ∀ fuel, cs.length ≤ fuel →
      replaceAllFuel ['`'] backtickRepl.data fuel cs = escChunks cs := by
  induction cs with
  | nil => intro fuel _; cases fuel <;> rfl
  | cons c cs ih =>
    intro fuel hf
    cases fuel with
    | zero => simp at hf
    | succ f =>
      have hf' : cs.length ≤ f := by simpa using hf
      by_cases hc : c = '`'
      · subst hc
        show (if ((['`'] : List Char) ≠ [] ∧ (['`'] : List Char).isPrefixOf ('`' :: cs))
          then backtickRepl.data ++ replaceAllFuel ['`'] backtickRepl.data f (List.drop 0 cs)
          else '`' :: replaceAllFuel ['`'] backtickRepl.data f cs) = _
        rw [if_pos ⟨by simp, by simp [List.isPrefixOf]⟩]
        simp only [List.drop_zero]
        rw [ih f hf']
        simp [escChunks]
      · show (if ((['`'] : List Char) ≠ [] ∧ (['`'] : List Char).isPrefixOf (c :: cs))
          then backtickRepl.data ++ replaceAllFuel ['`'] backtickRepl.data f (List.drop 0 cs)
          else c :: replaceAllFuel ['`'] backtickRepl.data f cs) = _
        rw [if_neg (by simp [List.isPrefixOf]; intro h; exact absurd h.symm hc)]
        rw [ih f hf']
        simp [escChunks, hc]

theorem escapeBackticks_data (s : String) :
    (escapeBackticks s).data = escChunks s.data := by
  show (goReplaceAll s "`" backtickRepl).data = _
  unfold goReplaceAll
  rw [if_neg (by decide)]
  exact replaceAllFuel_backtick s.data s.data.length le_rfl

theorem scanRaw_no_backtick (a : List Char) (r : List Char)
    (ha : ∀ c ∈ a, c ≠ '`') :
    scanRaw (a ++ '`' :: r) = some (a, r) := by
  induction a with
  | nil => simp [scanRaw]
  | cons c a ih =>
    have hc : c ≠ '`' := ha c (by simp)
    have := ih (fun x hx => ha x (by simp [hx]))
    simp [scanRaw, hc, this]

theorem escChunks_no_backtick (a : List Char) (ha : ∀ c ∈ a, c ≠ '`') :
    escChunks a = a := by
  induction a with
  | nil => rfl
  | cons c a ih =>
    have hc : c ≠ '`' := ha c (by simp)
    have := ih (fun x hx => ha x (by simp [hx]))
    simp [escChunks, hc] at this ⊢
    exact this

theorem escChunks_append (a b : List Char) :
    escChunks (a ++ b) = escChunks a ++ escChunks b := by
  simp [escChunks]

theorem split_first_backtick (cs : List Char) (h : '`' ∈ cs) :
    ∃ a b, cs = a ++ '`' :: b ∧ ∀ c ∈ a, c ≠ '`' := by
  induction cs with
  | nil => simp at h
  | cons c cs ih =>
    by_cases hc : c = '`'
    · exact ⟨[], cs, by simp [hc], by simp⟩
    · have h' : '`' ∈ cs := by
        rcases List.mem_cons.mp h with h | h
        · exact absurd h.symm hc
        · exact h
      obtain ⟨a, b, hab, ha⟩ := ih h'
      refine ⟨c :: a, b, by simp [hab], ?_⟩
      intro x hx
      rcases List.mem_cons.mp hx with rfl | hx
      · exact hc
      · exact ha x hx

theorem filter_ne_cr (a : List Char) (ha : ∀ c ∈ a, c ≠ '\r') :
    a.filter (fun c => c ≠ '\r') = a := by
  rw [List.filter_eq_self]
  intro x hx
  simpa using ha x hx

theorem count_le_len_backtick (cs : List Char) : cs.count '`' ≤ cs.length :=
  List.count_le_length '`' cs

theorem escChunks_length (cs : List Char) :
    (escChunks cs).length = cs.length + 10 * cs.count '`' := by
  induction cs with
  | nil => rfl
  | cons c cs ih =>
    by_cases hc : c = '`'
    · subst hc
      have hrep : backtickRepl.length = 11 := rfl
      have hrep' : backtickRepl.data.length = 11 := rfl
      simp [escChunks, List.count_cons, ih, hrep, hrep'] at *
      omega
    · simp [escChunks, List.count_cons, hc, ih] at *
      omega

theorem scanPlus_mid (E : List Char) :
    scanPlus (' ' :: '+' :: ' ' :: '"' :: '`' :: '"' :: ' ' :: '+' :: ' ' :: '`' :: E) =
      some ('"' :: '`' :: '"' :: ' ' :: '+' :: ' ' :: '`' :: E) := rfl

theorem scanInterp_tick (E : List Char) :
    scanInterp ('`' :: '"' :: E) = some (['`'], E) := rfl

theorem scanPlus_tail (E : List Char) :
    scanPlus (' ' :: '+' :: ' ' :: '`' :: E) = some ('`' :: E) := rfl

theorem scanPlus_nil : scanPlus ([] : List Char) = none := rfl

theorem scanTerm_tick (E : List Char) :
    scanTerm ('`' :: E) =
      (scanRaw E).map (fun p => (p.1.filter (fun c => c ≠ '\r'), p.2)) := rfl

theorem scanTerm_quote (E : List Char) :
    scanTerm ('"' :: E) = scanInterp E := rfl

theorem scanExpr_succ (f : Nat) (cs : List Char) :
    scanExpr (f + 1) cs =
      (scanTerm cs).bind (fun vr =>
        (scanPlus vr.2).elim (some vr) (fun r2 =>
          (scanExpr f r2).map (fun wr => (vr.1 ++ wr.1, wr.2)))) := rfl

theorem scanExpr_single_raw (a : List Char) (f : Nat)
    (ha : ∀ c ∈ a, c ≠ '`') (hcr : ∀ c ∈ a, c ≠ '\r') :
    scanExpr (f + 1) ('`' :: (a ++ ['`'])) = some (a, []) := by
  have h1 : scanRaw (a ++ ['`']) = some (a, []) := by
    simpa using scanRaw_no_backtick a [] ha
  rw [scanExpr_succ, scanTerm_tick, h1]
  simp only [Option.map_some', Option.some_bind]
  rw [filter_ne_cr a hcr]
  simp [scanPlus_nil]

theorem scanExpr_escChunks :
    ∀ (n : Nat) (cs : List Char) (fuel : Nat), cs.count '`' = n →
      (∀ c ∈ cs, c ≠ '\r') → 2 * n + 1 ≤ fuel →
      scanExpr fuel ('`' :: (escChunks cs ++ ['`'])) = some (cs, []) := by
  intro n
  induction n with
  | zero =>
    intro cs fuel hcount hcr hfuel
    obtain ⟨f, rfl⟩ : ∃ f, fuel = f + 1 := ⟨fuel - 1, by omega⟩
    have hbt : ∀ c ∈ cs, c ≠ '`' := by
      intro c hc hceq
      rw [List.count_eq_zero] at hcount
      rw [hceq] at hc
      exact hcount hc
    rw [escChunks_no_backtick cs hbt]
    exact scanExpr_single_raw cs f hbt hcr
  | succ n ih =>
    intro cs fuel hcount hcr hfuel
    obtain ⟨f2, rfl⟩ : ∃ f2, fuel = f2 + 1 + 1 := ⟨fuel - 2, by omega⟩
    have hmem : '`' ∈ cs := by
      by_contra hmem
      rw [← List.count_eq_zero] at hmem
      omega
    obtain ⟨a, b, rfl, ha⟩ := split_first_backtick cs hmem
    have haz : a.count '`' = 0 := List.count_eq_zero.mpr (fun h => (ha _ h) rfl)
    have hcb : b.count '`' = n := by
      rw [List.count_append, List.count_cons] at hcount
      simp [haz] at hcount
      omega
    have hcra : ∀ c ∈ a, c ≠ '\r' := fun c hc => hcr c (by simp [hc])
    have hcrb : ∀ c ∈ b, c ≠ '\r' := fun c hc => hcr c (by simp [hc])
    rw [escChunks_append, escChunks_no_backtick a ha]
    have hsplit : escChunks ('`' :: b) = backtickRepl.data ++ escChunks b := by
      simp [escChunks]
    rw [hsplit]
    have hshape : (a ++ (backtickRepl.data ++ escChunks b)) ++ ['`'] =
        a ++ '`' :: (' ' :: '+' :: ' ' :: '"' :: '`' :: '"' :: ' ' :: '+' :: ' ' ::
          '`' :: (escChunks b ++ ['`'])) := by
      show (a ++ (('`' :: (' ' :: '+' :: ' ' :: '"' :: '`' :: '"' :: ' ' :: '+' ::
        ' ' :: '`' :: ([] : List Char))) ++ escChunks b)) ++ ['`'] = _
      simp [List.append_assoc]
    rw [hshape, scanExpr_succ, scanTerm_tick, scanRaw_no_backtick a _ ha]
    have hinner : scanExpr (f2 + 1)
        ('"' :: '`' :: '"' :: ' ' :: '+' :: ' ' :: '`' :: (escChunks b ++ ['`'])) =
        some ('`' :: b, []) := by
      obtain ⟨f3, rfl⟩ : ∃ f3, f2 = f3 + 1 := ⟨f2 - 1, by omega⟩
      rw [scanExpr_succ, scanTerm_quote, scanInterp_tick]
      simp only [Option.some_bind]
      rw [scanPlus_tail]
      simp only [Option.elim_some]
      rw [ih b (f3 + 1) hcb hcrb (by omega)]
      simp
    simp only [Option.map_some', Option.some_bind]
    rw [filter_ne_cr a hcra, scanPlus_mid]
    simp only [Option.elim_some]
    rw [hinner]
    simp

theorem roundtrip_escape (s : String) (hcr : ∀ c ∈ s.data, c ≠ '\r') :
    goStringExprEval ("`" ++ escapeBackticks s ++ "`") = some s := by
  obtain ⟨cs⟩ := s
  have hdata : ("`" ++ escapeBackticks (String.mk cs) ++ "`").data =
      '`' :: (escChunks cs ++ ['`']) := by
    rw [String.data_append, String.data_append, escapeBackticks_data]
    simp
  unfold goStringExprEval
  rw [hdata]
  rw [scanExpr_escChunks (cs.count '`') cs _ rfl hcr ?hf]
  case hf =>
    simp [escChunks_length]
    omega

set_option maxHeartbeats 1000000 in
theorem parseStep_append_shape (full : Bool) (st : ParseState) (l : String)
    (hc : st.capturing = false) :
    ((parseStep full st l).long = st.long ∨
     (parseStep full st l).long =
       st.long ++ [if st.isIndent then "\t" ++ escapeBackticks l else escapeBackticks l]) ∧
    ((parseStep full st l).examples = st.examples ∨
     (parseStep full st l).examples =
       st.examples ++ [if st.isIndent then "\t" ++ escapeBackticks l else escapeBackticks l]) := by
  unfold parseStep
  rw [hc]
  split_ifs <;> refine ⟨?_, ?_⟩ <;> simp

theorem outputFile_empty_license_marker (base : String) (docs : List Doc) :
    goStartsWith (outputFile "" base docs)
      "\n\n// Code generated by \"mdtogo\"; DO NOT EDIT.\npackage " = true := by
  have key : ∃ t, (outputFile "" base docs).data =
      '\n' :: ((genHeader base).data ++ t) := by
    unfold outputFile
    cases hmap : docs.map docString with
    | nil =>
      refine ⟨[], ?_⟩
      show ("" ++ "\n" ++ genHeader base).data = _
      rw [String.data_append, String.data_append]
      simp
    | cons d L =>
      refine ⟨'\n' :: (goJoin "\n" (d :: L)).data, ?_⟩
      show ("" ++ "\n" ++ (genHeader base ++ "\n" ++ goJoin "\n" (d :: L))).data = _
      rw [String.data_append, String.data_append, String.data_append, String.data_append]
      simp
  obtain ⟨t, ht⟩ := key
  unfold goStartsWith
  rw [ht, List.isPrefixOf_iff_prefix]
  have hpre : ("\n\n// Code generated by \"mdtogo\"; DO NOT EDIT.\npackage ").data =
      '\n' :: ("\n// Code generated by \"mdtogo\"; DO NOT EDIT.\npackage ").data := rfl
  have hgen : (genHeader base).data =
      ("\n// Code generated by \"mdtogo\"; DO NOT EDIT.\npackage ").data ++
        (base.data ++ ['\n']) := by
    unfold genHeader
    rw [String.data_append, String.data_append]
    simp
  rw [hpre, hgen, List.cons_prefix_cons]
  refine ⟨rfl, ?_⟩
  rw [List.append_assoc]
  exact List.prefix_append _ _

theorem docString_empty (d : Doc) (hs : d.Short = "") (hl : d.Long = "")
    (he : d.Examples = "") : docString d = "\n" := by
  unfold docString docParts
  simp [hs, hl, he]
  rfl

theorem outputFile_append_empty_doc (lic base : String) (docs : List Doc) (d : Doc)
    (hs : d.Short = "") (hl : d.Long = "") (he : d.Examples = "") :
    outputFile lic base (docs ++ [d]) = outputFile lic base docs ++ "\n\n" := by
  unfold outputFile
  rw [List.map_append]
  simp only [List.map_cons, List.map_nil]
  have hsplit : lic :: genHeader base :: (docs.map docString ++ [docString d]) =
      (lic :: genHeader base :: docs.map docString) ++ [docString d] := by simp
  rw [hsplit, goJoin_append_singleton _ _ _ (by simp), docString_empty d hs hl he]
  rw [String.append_assoc]
  congr 1

theorem parseDocs_append (full : Bool) (fs1 fs2 : List (String × String)) :
    parseDocs full (fs1 ++ fs2) = parseDocs full fs1 ++ parseDocs full fs2 := by
  induction fs1 with
  | nil => rfl
  | cons f fs ih =>
    obtain ⟨n, c⟩ := f
    by_cases h : filepathExt n = ".md"
    · simp [parseDocs, h, ih]
    · simp [parseDocs, h, ih]

/-! ### Claim theorems -/

/-- C1 counterexample: on the claim's example document the code does not
produce `Long = "Edit the named resource in place."` and
`Examples = "kubectl edit pod/foo"`: blank lines inside each section are
appended too, so both fields carry surrounding newlines. -/
theorem c1_counterexample :
    (parse false "edit.md" c1Body).Long ≠ "Edit the named resource in place." ∧
    (parse false "edit.md" c1Body).Examples ≠ "kubectl edit pod/foo" := by
  decide

/-- C1 (amended): parsing the example document in default mode yields
`Short = "Edit a resource."` (the first line beginning with `## `
triggers a forward scan that skips blank lines and takes the first
non-blank line as the short description), while `Long` and `Examples`
retain the blank lines of their sections:
`Long = "\nEdit the named resource in place.\n"` and
`Examples = "\nkubectl edit pod/foo"`. -/
theorem c1_default_mode_parse :
    parse false "edit.md" c1Body =
      { Name := "Edit", Short := "Edit a resource.",
        Long := "\nEdit the named resource in place.\n",
        Examples := "\nkubectl edit pod/foo" } := by
  decide

/-- C2 counterexample: in full mode it is not the case that every line
not consumed by the short-description capture is appended to `Long`:
fence lines are dropped and fenced lines are tab-prefixed, so the
document with body lines `## x`, `a`, three backticks, `b`, three
backticks yields `Long = "\tb"` rather than the fence lines as literal
text. -/
theorem c2_counterexample :
    (parse true "x.md" "## x\na\n```\nb\n```").Long = "\tb" ∧
    ("\tb" : String) ≠ "```\nb\n```" := by
  decide

/-- C2 (amended): for every input, full-mode parsing yields the same
`Short` as default mode and an empty `Examples`, and `Long` is the
newline-join of every line not consumed by the short-description capture
and not a fence-toggle line, each backtick-escaped and tab-prefixed
while inside a fence (`fullLongLines`). -/
theorem c2_full_mode (name value : String) :
    (parse true name value).Short = (parse false name value).Short ∧
    (parse true name value).Examples = "" ∧
    (parse true name value).Long =
      goJoin "\n" (fullLongLines false false false (scanLines value)) := by
  refine ⟨?_, ?_, ?_⟩
  · show (parseLinesGo true (scanLines value) initState).short =
      (parseLinesGo false (scanLines value) initState).short
    have h1 := shortProj_parseLines true (scanLines value) initState
    have h2 := shortProj_parseLines false (scanLines value) initState
    exact congrArg Prod.fst (h1.trans h2.symm)
  · show goJoin "\n" (parseLinesGo true (scanLines value) initState).examples = ""
    rw [parseLines_full_examples]
    rfl
  · show goJoin "\n" (parseLinesGo true (scanLines value) initState).long = _
    rw [parseLines_full_long]
    rfl

/-- C3 counterexample: the code takes the literal second and third
elements of the argument vector, flags included: with arguments
`mdtogo --full=true src dest` the source directory becomes
`--full=true`, not `src`; and with two flags and no positionals at all
(`mdtogo --full=true --license=none`) no usage error is raised. -/
theorem c3_counterexample :
    (readArgs ["mdtogo", "--full=true", "src", "dest"]).source = some "--full=true" ∧
    some ("--full=true" : String) ≠ some "src" ∧
    (readArgs ["mdtogo", "--full=true", "--license=none"]).usageError = false := by
  decide

/-- C3 (amended): the argument reader takes the elements at indices 1 and
2 of the argument vector as source and destination, whether or not they
look like flags, and raises the usage error exactly when the whole
vector (program name and flags included) has fewer than three
elements. -/
theorem c3_positional_arguments (args : List String) :
    (readArgs args).source = args[1]? ∧
    (readArgs args).dest = args[2]? ∧
    ((readArgs args).usageError = true ↔ args.length < 3) := by
  refine ⟨rfl, rfl, ?_⟩
  simp [readArgs]

/-- C4 counterexample: the claim's own algorithm — title-casing
whitespace-separated words — maps `my-cmd.md` to `Mycmd` (the `c` after
the hyphen stays lower case), while the code maps it to `MyCmd`, so the
claimed algorithm contradicts the claimed examples. -/
theorem c4_counterexample :
    deriveName "my-cmd.md" = "MyCmd" ∧ deriveNameSpec "my-cmd.md" = "Mycmd" ∧
    ("Mycmd" : String) ≠ "MyCmd" := by
  decide

/-- C4 (amended): `Name` is a deterministic function of the filename
alone: remove every occurrence of the extension, title-case with word
boundaries at every non-alphanumeric character (so a letter after a
hyphen is capitalized too, as in Go `strings.Title`), then drop hyphens;
`my-cmd.md` maps to `MyCmd`, `edit.md` to `Edit`, `my-cmd-name.md` to
`MyCmdName`, and whitespace-separated words are capitalized as well. -/
theorem c4_name_derivation :
    deriveName "my-cmd.md" = "MyCmd" ∧ deriveName "edit.md" = "Edit" ∧
    deriveName "my-cmd-name.md" = "MyCmdName" ∧
    deriveName "my cmd.md" = "My Cmd" := by
  decide

/-- C5 counterexample: the line captured as the short description keeps
its literal backtick unescaped (so the claim's "including the line
captured as Short" fails), and a line containing a carriage return does
not round-trip exactly: the Go raw-string literal discards the carriage
return. -/
theorem c5_counterexample :
    (parseLinesGo false ["## x", "a`b"] initState).short = "a`b" ∧
    escapeBackticks "a`b" ≠ "a`b" ∧
    goStringExprEval ("`" ++ escapeBackticks "a\rb" ++ "`") = some "ab" ∧
    ("ab" : String) ≠ "a\rb" := by
  decide

/-- C5 (amended): every line the main loop appends to `Long` or
`Examples` is `escapeBackticks`-escaped, with a tab prefix while inside
a fence (the `Short` line is taken verbatim instead), and for every
carriage-return-free line the rendered backtick-delimited value
evaluates, as a Go string expression, back to the original line. -/
theorem c5_escaping_roundtrip :
    (∀ (full : Bool) (st : ParseState) (l : String), st.capturing = false →
      ((parseStep full st l).long = st.long ∨
       (parseStep full st l).long =
         st.long ++ [if st.isIndent then "\t" ++ escapeBackticks l else escapeBackticks l]) ∧
      ((parseStep full st l).examples = st.examples ∨
       (parseStep full st l).examples =
         st.examples ++ [if st.isIndent then "\t" ++ escapeBackticks l else escapeBackticks l])) ∧
    (∀ s : String, (∀ c ∈ s.data, c ≠ '\r') →
      goStringExprEval ("`" ++ escapeBackticks s ++ "`") = some s) :=
  ⟨fun full st l hc => parseStep_append_shape full st l hc,
   fun s h => roundtrip_escape s h⟩

/-- C5 witness: the escaping applies at a concrete step, and the
round-trip holds for a concrete backtick-carrying line. -/
theorem c5_escaping_roundtrip_witness :
    ((parseStep false { initState with isLong := true } "a`b").long = [] ∨
     (parseStep false { initState with isLong := true } "a`b").long = [escapeBackticks "a`b"]) ∧
    goStringExprEval ("`" ++ escapeBackticks "a`b" ++ "`") = some "a`b" := by
  constructor
  · have h := (c5_escaping_roundtrip.1 false { initState with isLong := true } "a`b" rfl).1
    simpa using h
  · exact c5_escaping_roundtrip.2 "a`b" (by decide)

/-- C6: for every document the rendered block has exactly one
declaration per non-empty field, of the form
`var <Name><Suffix>=` followed by the backtick-wrapped field text, none
for an empty field, and the block is their newline-join plus a trailing
newline. -/
theorem c6_declarations (d : Doc) :
    docParts d =
      (if d.Short = "" then [] else ["var " ++ d.Name ++ "Short=`" ++ d.Short ++ "`"]) ++
      (if d.Long = "" then [] else ["var " ++ d.Name ++ "Long=`" ++ d.Long ++ "`"]) ++
      (if d.Examples = "" then [] else ["var " ++ d.Name ++ "Examples=`" ++ d.Examples ++ "`"]) ∧
    docString d = goJoin "\n" (docParts d) ++ "\n" := by
  constructor
  · unfold docParts
    split_ifs <;> simp_all
  · rfl

/-- C7 counterexample: a line starting with three backticks that is
consumed by the short-description scan is kept in a field (`Short`) and
does not toggle the fence flag, so not every such line is dropped and
toggles the flag. -/
theorem c7_counterexample :
    goStartsWith "``` a" "```" = true ∧
    (parseLinesGo false ["## x", "``` a"] initState).short = "``` a" ∧
    (parseLinesGo false ["## x", "``` a"] initState).isIndent = false := by
  decide

/-- C7 (amended): every fence line reaching the main loop (not consumed
by the short-description scan) toggles the flag and changes nothing
else; while the flag is on any appended line carries exactly one added
tab; the flag starts off at the beginning of each document's parse, and
the per-file loop is a homomorphism, so no parse state is carried
between documents. -/
theorem c7_fence_behavior :
    (∀ (full : Bool) (st : ParseState) (l : String),
        st.capturing = false → goStartsWith l "```" = true →
        parseStep full st l = { st with isIndent := !st.isIndent }) ∧
    (∀ (full : Bool) (st : ParseState) (l : String),
        st.capturing = false → st.isIndent = true →
        ((parseStep full st l).long = st.long ∨
         (parseStep full st l).long = st.long ++ ["\t" ++ escapeBackticks l]) ∧
        ((parseStep full st l).examples = st.examples ∨
         (parseStep full st l).examples = st.examples ++ ["\t" ++ escapeBackticks l])) ∧
    initState.isIndent = false ∧
    (∀ (full : Bool) (fs1 fs2 : List (String × String)),
        parseDocs full (fs1 ++ fs2) = parseDocs full fs1 ++ parseDocs full fs2) := by
  refine ⟨parseStep_fence, ?_, rfl, parseDocs_append⟩
  intro full st l hc hi
  have h := parseStep_append_shape full st l hc
  rw [hi] at h
  simpa using h

/-- C7 witness: the fence toggle, the tab prefix and the per-document
independence at concrete inputs. -/
theorem c7_fence_behavior_witness :
    parseStep false initState "```go" = { initState with isIndent := true } ∧
    ((parseStep false { initState with isIndent := true } "x").long =
       ({ initState with isIndent := true } : ParseState).long ∨
     (parseStep false { initState with isIndent := true } "x").long =
       ({ initState with isIndent := true } : ParseState).long ++ ["\t" ++ escapeBackticks "x"]) ∧
    parseDocs false ([("a.md", "## a")] ++ [("b.md", "## b")]) =
      parseDocs false [("a.md", "## a")] ++ parseDocs false [("b.md", "## b")] := by
  refine ⟨?_, ?_, ?_⟩
  · have h := c7_fence_behavior.1 false initState "```go" rfl (by decide)
    simpa using h
  · exact (c7_fence_behavior.2.1 false { initState with isIndent := true } "x" rfl rfl).1
  · exact c7_fence_behavior.2.2.2 false [("a.md", "## a")] [("b.md", "## b")]

/-- C8: with an empty license flag the header is the built-in default;
with `none` it is empty and the output file has no header text before
the generated-code marker comment (only the two joining newlines); with
any other path the header is exactly the file's contents, and an
unreadable file (modelled as `none`) is the fatal case. -/
theorem c8_license_resolution (fs : String → Option String) (p base : String)
    (docs : List Doc) :
    resolveLicense "" fs = some defaultLicense ∧
    resolveLicense "none" fs = some "" ∧
    (p ≠ "" → p ≠ "none" → resolveLicense p fs = fs p) ∧
    goStartsWith (outputFile "" base docs)
      "\n\n// Code generated by \"mdtogo\"; DO NOT EDIT.\npackage " = true := by
  refine ⟨rfl, rfl, ?_, outputFile_empty_license_marker base docs⟩
  intro h1 h2
  unfold resolveLicense
  rw [if_neg h1, if_neg h2]

/-- C8 witness: a readable license file is passed through verbatim and a
missing one is fatal. -/
theorem c8_license_resolution_witness :
    resolveLicense "LICENSE.txt"
      (fun q => if q = "LICENSE.txt" then some "MIT" else none) = some "MIT" ∧
    resolveLicense "missing"
      (fun _ => (none : Option String)) = none := by
  constructor
  · have h := (c8_license_resolution
      (fun q => if q = "LICENSE.txt" then some "MIT" else none)
      "LICENSE.txt" "docs" []).2.2.1 (by decide) (by decide)
    rw [h]
    decide
  · have h := (c8_license_resolution (fun _ => (none : Option String))
      "missing" "docs" []).2.2.1 (by decide) (by decide)
    rw [h]

/-- C9: the line captured as the short description is taken verbatim: a
`## ` header followed by blank lines and then any non-blank line `l`
(even one that looks like a heading or a fence) leaves the parse in the
state with `short := l` unchanged otherwise, with no escaping and no tab
prefix applied to `l`. -/
theorem c9_short_capture_verbatim (full : Bool) (st : ParseState) (h l : String)
    (bs rest : List String)
    (hc : st.capturing = false) (hs : st.short = "")
    (hh : goStartsWith h "## " = true)
    (hbs : ∀ b ∈ bs, isBlankGo b = true)
    (hl : isBlankGo l = false) :
    parseLinesGo full (h :: (bs ++ l :: rest)) st =
      parseLinesGo full rest { st with short := l, capturing := false } := by
  show parseLinesGo full (bs ++ l :: rest) (parseStep full st h) = _
  rw [parseStep_trigger full st h hc hh hs]
  show (bs ++ l :: rest).foldl (parseStep full) { st with capturing := true } = _
  rw [List.foldl_append]
  have hskip := parseLines_blank_capturing full bs { st with capturing := true } rfl hbs
  unfold parseLinesGo at hskip
  rw [hskip, List.foldl_cons, parseStep_capturing_take full _ l rfl hl]
  rfl

/-- C9 witness: a line that looks like a level-3 heading is captured
verbatim as the short description. -/
theorem c9_short_capture_verbatim_witness :
    parseLinesGo false ["## deploy", "", "### Examples"] initState =
      { initState with short := "### Examples", capturing := false } := by
  have h := c9_short_capture_verbatim false initState "## deploy" "### Examples" [""] []
    rfl rfl (by decide) (by decide) (by decide)
  simpa using h

/-- C10: a document whose three fields are all empty still renders as a
single newline, and appending it to the input adds exactly one blank
line ("\n\n") to the generated file, which therefore differs from the
file produced without it. -/
theorem c10_empty_doc_block (lic base : String) (docs : List Doc) (d : Doc)
    (hs : d.Short = "") (hl : d.Long = "") (he : d.Examples = "") :
    docString d = "\n" ∧
    outputFile lic base (docs ++ [d]) = outputFile lic base docs ++ "\n\n" ∧
    outputFile lic base (docs ++ [d]) ≠ outputFile lic base docs := by
  refine ⟨docString_empty d hs hl he,
    outputFile_append_empty_doc lic base docs d hs hl he, ?_⟩
  rw [outputFile_append_empty_doc lic base docs d hs hl he]
  intro hEq
  have hlen := congrArg (fun s => s.data.length) hEq
  simp [String.data_append] at hlen

/-- C10 witness: the all-empty document at concrete inputs. -/
theorem c10_empty_doc_block_witness :
    docString { Name := "Empty", Short := "", Long := "", Examples := "" } = "\n" ∧
    outputFile "L" "docs" ([] ++ [{ Name := "Empty", Short := "", Long := "", Examples := "" }]) =
      outputFile "L" "docs" [] ++ "\n\n" := by
  have h := c10_empty_doc_block "L" "docs" []
    { Name := "Empty", Short := "", Long := "", Examples := "" } rfl rfl rfl
  exact ⟨h.1, h.2.1⟩
